import Mathlib

/-!
A verification development for the crypto-catcher contracts.

The Solidity contracts are shallowly embedded: `uint256` values become `Nat`
(the contracts never rely on wraparound for the operations modelled here, and
every arithmetic step stays far below 2^256 under the contracts' own bounds),
addresses become `Nat` (0 playing the role of `address(0)`), storage mappings
become total functions with the Solidity default value, and a reverting call
becomes `Option` (`none` = revert, leaving state unchanged at the call site).
External black boxes (keccak256, the blocklock decryption primitive) are
universally quantified function parameters.
-/

/-! ## RewardComposer: EnhancedGameClaims (src/unnamed/part_009) -/

/-- Embeds `BASE_RATE_NUMERATOR` from `EnhancedGameClaims`. -/
def BASE_RATE_NUMERATOR : Nat := 1

/-- Embeds `BASE_RATE_DENOMINATOR` from `EnhancedGameClaims`. -/
def BASE_RATE_DENOMINATOR : Nat := 1000

/-- Embeds `SEALED_SESSION_BONUS` from `EnhancedGameClaims`. -/
def SEALED_SESSION_BONUS : Nat := 50

/-- Embeds `LEVEL_BONUS_PER_LEVEL` from `EnhancedGameClaims`. -/
def LEVEL_BONUS_PER_LEVEL : Nat := 2

/-- Embeds `MAX_LEVEL_BONUS` from `EnhancedGameClaims`. -/
def MAX_LEVEL_BONUS : Nat := 100

/-- Embeds `EnhancedGameClaims.calculateBaseReward` (part_009, lines 85-88). -/
def calculateBaseReward (points : Nat) : Nat :=
  if points < 10 then 0
  else (points * BASE_RATE_NUMERATOR * 1000000) / BASE_RATE_DENOMINATOR

/-- Embeds `EnhancedGameClaims.calculateTotalMultiplier` (part_009, lines 91-114).
The reads of `userManager.isRegistered(player)` and of the stored profile's
`level` field are passed in as the arguments `registered` and `level`. -/
def calculateTotalMultiplier (registered : Bool) (level : Nat)
    (sessionMultiplier : Nat) (isSealed : Bool) : Nat :=
  let t1 := sessionMultiplier
  let t2 := if isSealed then (t1 * (100 + SEALED_SESSION_BONUS)) / 100 else t1
  if registered then
    let levelBonus0 := level * LEVEL_BONUS_PER_LEVEL
    let levelBonus := if levelBonus0 > MAX_LEVEL_BONUS then MAX_LEVEL_BONUS else levelBonus0
    (t2 * (100 + levelBonus)) / 100
  else t2

/-- Embeds `EnhancedGameClaims.calculateFinalReward` (part_009, lines 117-126):
returns `(baseReward, totalMultiplier, finalReward)`. -/
def calculateFinalReward (registered : Bool) (level : Nat) (points : Nat)
    (sessionMultiplier : Nat) (isSealed : Bool) : Nat × Nat × Nat :=
  let baseReward := calculateBaseReward points
  let totalMultiplier := calculateTotalMultiplier registered level sessionMultiplier isSealed
  (baseReward, totalMultiplier, (baseReward * totalMultiplier) / 100)

/-- C4: Reward composition.  `calculateBaseReward` returns 0 below 10 points and
`points * 1e6 / 1000` otherwise; the total multiplier starts at the session
multiplier, applies the sealed bonus `*150/100` first and then the level bonus
`*(100 + min(playerLevel*2, 100))/100`; the final reward is
`baseReward * totalMultiplier / 100`.  In the scenario points = 1000,
sessionMultiplier = 200, sealed, registered player at level 10, the result is
`(1000000, 360, 3600000)`. -/
theorem reward_composition_c4 :
    (∀ points : Nat,
      calculateBaseReward points = if points < 10 then 0 else points * 1000000 / 1000)
    ∧ (∀ level sessionMultiplier : Nat, ∀ isSealed : Bool,
      calculateTotalMultiplier true level sessionMultiplier isSealed =
        ((if isSealed then sessionMultiplier * 150 / 100 else sessionMultiplier) *
          (100 + min (level * 2) 100)) / 100)
    ∧ (∀ registered : Bool, ∀ level points sessionMultiplier : Nat, ∀ isSealed : Bool,
      calculateFinalReward registered level points sessionMultiplier isSealed =
        (calculateBaseReward points,
         calculateTotalMultiplier registered level sessionMultiplier isSealed,
         calculateBaseReward points *
           calculateTotalMultiplier registered level sessionMultiplier isSealed / 100))
    ∧ calculateFinalReward true 10 1000 200 true = (1000000, 360, 3600000) := by
  refine ⟨fun points => ?_, fun level sm sealed => ?_, fun r l p sm sealed => rfl, by decide⟩
  · simp only [calculateBaseReward, BASE_RATE_NUMERATOR, BASE_RATE_DENOMINATOR, mul_one]
  · simp only [calculateTotalMultiplier, SEALED_SESSION_BONUS, LEVEL_BONUS_PER_LEVEL,
      MAX_LEVEL_BONUS]
    have : (if level * 2 > 100 then 100 else level * 2) = min (level * 2) 100 := by
      rcases le_or_lt (level * 2) 100 with h | h
      · simp [Nat.not_lt.mpr h, Nat.min_eq_left h]
      · simp [h, Nat.min_eq_right h.le]
    rw [this]
    norm_num

/-- The third component (`finalReward`) of `calculateFinalReward`. -/
def finalRewardOf (registered : Bool) (level points sessionMultiplier : Nat)
    (isSealed : Bool) : Nat :=
  (calculateFinalReward registered level points sessionMultiplier isSealed).2.2

theorem calculateBaseReward_mono {p q : Nat} (h : p ≤ q) :
    calculateBaseReward p ≤ calculateBaseReward q := by
  unfold calculateBaseReward
  rcases lt_or_le p 10 with hp | hp
  · simp [hp]
  · have hq : ¬ q < 10 := Nat.not_lt.mpr (le_trans hp h)
    simp only [Nat.not_lt.mpr hp, if_false, hq]
    exact Nat.div_le_div_right (Nat.mul_le_mul_right _ (Nat.mul_le_mul_right _ h))

theorem calculateTotalMultiplier_mono_sm (registered : Bool) (level : Nat)
    {s t : Nat} (isSealed : Bool) (h : s ≤ t) :
    calculateTotalMultiplier registered level s isSealed ≤
      calculateTotalMultiplier registered level t isSealed := by
  unfold calculateTotalMultiplier
  have h2 : (if isSealed then (s * (100 + SEALED_SESSION_BONUS)) / 100 else s) ≤
      (if isSealed then (t * (100 + SEALED_SESSION_BONUS)) / 100 else t) := by
    cases isSealed <;> simp
    · exact h
    · exact Nat.div_le_div_right (Nat.mul_le_mul_right _ h)
  cases registered <;> simp only [if_true, if_false, Bool.false_eq_true]
  · exact h2
  · exact Nat.div_le_div_right (Nat.mul_le_mul_right _ h2)

theorem calculateTotalMultiplier_mono_level {l m : Nat} (sm : Nat)
    (isSealed : Bool) (h : l ≤ m) :
    calculateTotalMultiplier true l sm isSealed ≤
      calculateTotalMultiplier true m sm isSealed := by
  unfold calculateTotalMultiplier
  simp only [if_true]
  apply Nat.div_le_div_right
  apply Nat.mul_le_mul_left
  have hb : (if l * LEVEL_BONUS_PER_LEVEL > MAX_LEVEL_BONUS then MAX_LEVEL_BONUS
      else l * LEVEL_BONUS_PER_LEVEL) ≤
      (if m * LEVEL_BONUS_PER_LEVEL > MAX_LEVEL_BONUS then MAX_LEVEL_BONUS
      else m * LEVEL_BONUS_PER_LEVEL) := by
    have hlm : l * LEVEL_BONUS_PER_LEVEL ≤ m * LEVEL_BONUS_PER_LEVEL :=
      Nat.mul_le_mul_right _ h
    split <;> split <;> omega
  omega

/-- C7: Reward monotonicity.  With the other arguments fixed, the computed
final reward is non-decreasing in `points`, in `sessionMultiplier`, and (for a
registered player) in `playerLevel`. -/
theorem reward_monotonicity_c7 :
    (∀ (registered : Bool) (level sm : Nat) (isSealed : Bool) (p q : Nat), p ≤ q →
      finalRewardOf registered level p sm isSealed ≤
        finalRewardOf registered level q sm isSealed)
    ∧ (∀ (registered : Bool) (level points : Nat) (isSealed : Bool) (s t : Nat), s ≤ t →
      finalRewardOf registered level points s isSealed ≤
        finalRewardOf registered level points t isSealed)
    ∧ (∀ (points sm : Nat) (isSealed : Bool) (l m : Nat), l ≤ m →
      finalRewardOf true l points sm isSealed ≤
        finalRewardOf true m points sm isSealed) := by
  refine ⟨fun r lv sm sealed p q h => ?_, fun r lv pts sealed s t h => ?_,
    fun pts sm sealed l m h => ?_⟩ <;>
    simp only [finalRewardOf, calculateFinalReward] <;> apply Nat.div_le_div_right
  · exact Nat.mul_le_mul_right _ (calculateBaseReward_mono h)
  · exact Nat.mul_le_mul_left _ (calculateTotalMultiplier_mono_sm r lv sealed h)
  · exact Nat.mul_le_mul_left _ (calculateTotalMultiplier_mono_level sm sealed h)

/-- Witness for C7 at concrete inputs. -/
theorem reward_monotonicity_c7_witness :
    finalRewardOf true 10 500 200 true ≤ finalRewardOf true 10 1000 200 true ∧
    finalRewardOf false 3 100 120 false ≤ finalRewardOf false 3 100 150 false ∧
    finalRewardOf true 10 1000 200 true ≤ finalRewardOf true 50 1000 200 true :=
  ⟨reward_monotonicity_c7.1 true 10 200 true 500 1000 (by decide),
   reward_monotonicity_c7.2.1 false 3 100 false 120 150 (by decide),
   reward_monotonicity_c7.2.2 1000 200 true 10 50 (by decide)⟩

/-! ## UserProgressionLedger: UserManager (src/unnamed/part_001) -/

/-- Embeds `LEVEL_UP_BASE_XP` from `UserManager`. -/
def LEVEL_UP_BASE_XP : Nat := 1000

/-- The loop of `UserManager._sqrt` (part_001, lines 390-399): Babylonian
iteration `while (z < y) { y = z; z = (x / z + z) / 2; }` returning `y`.
The argument order is `(x, z, y)`. -/
def sqrtLoop (x : Nat) (z y : Nat) : Nat :=
  if z < y then sqrtLoop x ((x / z + z) / 2) z else y
termination_by y
decreasing_by exact ‹z < y›

/-- Embeds `UserManager._sqrt` (part_001, lines 390-399). -/
def sqrtUM (x : Nat) : Nat :=
  if x = 0 then 0 else sqrtLoop x ((x + 1) / 2) x

/-- Embeds `UserManager._calculateLevel` (part_001, lines 381-387).  The result is a
`uint8` in the source; it is at most 100, so `Nat` models it exactly. -/
def calculateLevel (xp : Nat) : Nat :=
  if xp < LEVEL_UP_BASE_XP then 1
  else
    let level := sqrtUM (xp / LEVEL_UP_BASE_XP) + 1
    if level > 100 then 100 else level

theorem sqrt_le_avg_div (x z : Nat) (hz : 1 ≤ z) :
    Nat.sqrt x ≤ (x / z + z) / 2 := by
  set s := Nat.sqrt x with hs
  have h1 : 2 * s * z ≤ s * s + z * z := by
    zify
    nlinarith [sq_nonneg ((s : ℤ) - (z : ℤ))]
  have h2 : s * s ≤ x := Nat.sqrt_le x
  have h3 : 2 * s * z ≤ x + z * z := by omega
  have h4 : 2 * s ≤ (x + z * z) / z := by
    rw [Nat.le_div_iff_mul_le hz]
    omega
  have h5 : (x + z * z) / z = x / z + z := by
    rw [Nat.add_mul_div_right _ _ hz]
  rw [Nat.le_div_iff_mul_le (by norm_num : 0 < 2)]
  omega

theorem sqrtLoop_eq_sqrt (x : Nat) (hx : 1 ≤ x) :
    ∀ y z, Nat.sqrt x ≤ z → Nat.sqrt x ≤ y → 1 ≤ z →
      (¬ z < y → y * y ≤ x) → sqrtLoop x z y = Nat.sqrt x := by
  intro y
  induction y using Nat.strong_induction_on with
  | _ y ih =>
    intro z hsz hsy hz1 hexit
    rw [sqrtLoop]
    by_cases hlt : z < y
    · simp only [hlt, if_true]
      have hs1 : 1 ≤ Nat.sqrt x := Nat.sqrt_pos.mpr hx
      refine ih z hlt _ (sqrt_le_avg_div x z hz1) hsz
        (le_trans hs1 (sqrt_le_avg_div x z hz1)) ?_
      intro hge
      have h1 : z ≤ (x / z + z) / 2 := Nat.not_lt.mp hge
      have h2 : z * 2 ≤ x / z + z := (Nat.le_div_iff_mul_le (by norm_num)).mp h1
      have h3 : z ≤ x / z := by omega
      exact (Nat.le_div_iff_mul_le hz1).mp h3
    · simp only [hlt, if_false]
      have hyy : y * y ≤ x := hexit hlt
      have : y ≤ Nat.sqrt x := Nat.le_sqrt.mpr hyy
      omega

/-- Function `sqrtUM` computes the floor integer square root. -/
theorem sqrtUM_eq_sqrt (x : Nat) : sqrtUM x = Nat.sqrt x := by
  unfold sqrtUM
  rcases Nat.eq_zero_or_pos x with h0 | hx
  · simp [h0]
  · have hx0 : x ≠ 0 := Nat.pos_iff_ne_zero.mp hx
    simp only [hx0, if_false]
    apply sqrtLoop_eq_sqrt x hx
    · -- sqrt x ≤ (x + 1) / 2
      have hs : Nat.sqrt x * Nat.sqrt x ≤ x := Nat.sqrt_le x
      have h2 : 2 * Nat.sqrt x ≤ Nat.sqrt x * Nat.sqrt x + 1 := by nlinarith
      rw [Nat.le_div_iff_mul_le (by norm_num : 0 < 2)]
      omega
    · exact Nat.sqrt_le_self x
    · omega
    · intro hge
      have h1 : x ≤ (x + 1) / 2 := Nat.not_lt.mp hge
      have h2 : x * 2 ≤ x + 1 := (Nat.le_div_iff_mul_le (by norm_num)).mp h1
      have hx1 : x = 1 := by omega
      simp [hx1]

/-- C9: for every xp, the player level equals
`min(100, max(1, floor(sqrt(xp/1000)) + 1))`, the Babylonian `_sqrt` returns
the floor square root of its argument, and the level is non-decreasing in xp. -/
theorem level_formula_c9 :
    (∀ x : Nat, sqrtUM x = Nat.sqrt x)
    ∧ (∀ xp : Nat, calculateLevel xp = min 100 (max 1 (Nat.sqrt (xp / 1000) + 1)))
    ∧ (∀ a b : Nat, a ≤ b → calculateLevel a ≤ calculateLevel b) := by
  have hform : ∀ xp : Nat, calculateLevel xp = min 100 (max 1 (Nat.sqrt (xp / 1000) + 1)) := by
    intro xp
    unfold calculateLevel
    simp only [sqrtUM_eq_sqrt, LEVEL_UP_BASE_XP]
    rcases lt_or_le xp 1000 with h | h
    · have h0 : xp / 1000 = 0 := Nat.div_eq_of_lt h
      rw [if_pos h, h0]
      simp
    · have h1 : 1 ≤ xp / 1000 := (Nat.one_le_div_iff (by norm_num)).mpr h
      have h2 : 1 ≤ Nat.sqrt (xp / 1000) := Nat.sqrt_pos.mpr h1
      rw [if_neg (Nat.not_lt.mpr h)]
      show (if Nat.sqrt (xp / 1000) + 1 > 100 then 100 else Nat.sqrt (xp / 1000) + 1) = _
      split <;> omega
  refine ⟨sqrtUM_eq_sqrt, hform, fun a b hab => ?_⟩
  rw [hform a, hform b]
  have hs : Nat.sqrt (a / 1000) ≤ Nat.sqrt (b / 1000) :=
    Nat.sqrt_le_sqrt (Nat.div_le_div_right hab)
  omega

/-- Witness for C9 at concrete inputs. -/
theorem level_formula_c9_witness :
    calculateLevel 500 ≤ calculateLevel 9000 :=
  level_formula_c9.2.2 500 9000 (by decide)

/-! ## ThresholdGenerator: CryptoCatcherRandomness (src/contracts/CryptoCatcherRandomness.sol)

`keccak256(abi.encode(seed, i))` and `keccak256(abi.encode(seed, "difficulty"))`
are black-box hash functions, passed in as `hashPair` and `hashDifficulty`. -/

/-- The loop body of `CryptoCatcherRandomness._processSessionSeed`
(CryptoCatcherRandomness.sol, lines 215-222), producing the
`(threshold, difficulty)` pair of each iteration; `fuel` counts the remaining
iterations (the source runs it with `i = 0` and 5 iterations). -/
def processSeedLoop (hashPair : Nat → Nat → Nat) (hashDifficulty : Nat → Nat) :
    Nat → Nat → Nat → List (Nat × Nat)
  | _seed, _i, 0 => []
  | seed, i, fuel + 1 =>
      let seed2 := hashPair seed i
      (100 * (i + 1) + seed2 % (200 * (i + 1)), 1 + hashDifficulty seed2 % 10)
        :: processSeedLoop hashPair hashDifficulty seed2 (i + 1) fuel

/-- Embeds `CryptoCatcherRandomness._processSessionSeed` (lines 206-228), restricted
to its computational content: the generated `(thresholds, difficulties)`
arrays (both of length 5) derived from the delivered randomness. -/
def processSessionSeed (hashPair : Nat → Nat → Nat) (hashDifficulty : Nat → Nat)
    (randomness : Nat) : List Nat × List Nat :=
  let pairs := processSeedLoop hashPair hashDifficulty randomness 0 5
  (pairs.map Prod.fst, pairs.map Prod.snd)

theorem processSeedLoop_length (hashPair : Nat → Nat → Nat)
    (hashDifficulty : Nat → Nat) :
    ∀ (fuel seed i : Nat),
      (processSeedLoop hashPair hashDifficulty seed i fuel).length = fuel := by
  intro fuel
  induction fuel with
  | zero => intro seed i; rfl
  | succ f ih =>
    intro seed i
    simp only [processSeedLoop, List.length_cons, ih]

theorem processSeedLoop_bounds (hashPair : Nat → Nat → Nat)
    (hashDifficulty : Nat → Nat) :
    ∀ (fuel seed i j : Nat), j < fuel →
      100 * (i + j + 1) ≤
          ((processSeedLoop hashPair hashDifficulty seed i fuel).getD j (0, 0)).1 ∧
        ((processSeedLoop hashPair hashDifficulty seed i fuel).getD j (0, 0)).1 <
          300 * (i + j + 1) ∧
        1 ≤ ((processSeedLoop hashPair hashDifficulty seed i fuel).getD j (0, 0)).2 ∧
        ((processSeedLoop hashPair hashDifficulty seed i fuel).getD j (0, 0)).2 ≤ 10 := by
  intro fuel
  induction fuel with
  | zero => intro seed i j hj; omega
  | succ f ih =>
    intro seed i j hj
    cases j with
    | zero =>
      have hm : (hashPair seed i) % (200 * (i + 1)) < 200 * (i + 1) :=
        Nat.mod_lt _ (by positivity)
      have hd : (hashDifficulty (hashPair seed i)) % 10 < 10 :=
        Nat.mod_lt _ (by norm_num)
      simp only [processSeedLoop, List.getD_cons_zero]
      omega
    | succ j2 =>
      have := ih (hashPair seed i) (i + 1) j2 (by omega)
      simp only [processSeedLoop, List.getD_cons_succ]
      have harith : i + 1 + j2 + 1 = i + (j2 + 1) + 1 := by omega
      rw [harith] at this
      exact this

theorem map_fst_getD (l : List (Nat × Nat)) :
    ∀ j, j < l.length → (l.map Prod.fst).getD j 0 = (l.getD j (0, 0)).1 := by
  induction l with
  | nil => intro j hj; simp at hj
  | cons x xs ih =>
    intro j hj
    cases j with
    | zero => rfl
    | succ j2 =>
      simp only [List.map_cons, List.getD_cons_succ]
      exact ih j2 (by simpa using Nat.lt_of_succ_lt_succ hj)

theorem map_snd_getD (l : List (Nat × Nat)) :
    ∀ j, j < l.length → (l.map Prod.snd).getD j 0 = (l.getD j (0, 0)).2 := by
  induction l with
  | nil => intro j hj; simp at hj
  | cons x xs ih =>
    intro j hj
    cases j with
    | zero => rfl
    | succ j2 =>
      simp only [List.map_cons, List.getD_cons_succ]
      exact ih j2 (by simpa using Nat.lt_of_succ_lt_succ hj)

/-- C3: threshold generation is deterministic in the seed, and for every
`i < 5` the generated `threshold[i]` lies in `[100*(i+1), 300*(i+1))` while
`difficulty[i]` lies in `[1, 10]`. -/
theorem threshold_generation_c3 (hashPair : Nat → Nat → Nat)
    (hashDifficulty : Nat → Nat) (seed : Nat) :
    (∀ seed2, seed = seed2 →
      processSessionSeed hashPair hashDifficulty seed =
        processSessionSeed hashPair hashDifficulty seed2)
    ∧ (processSessionSeed hashPair hashDifficulty seed).1.length = 5
    ∧ (processSessionSeed hashPair hashDifficulty seed).2.length = 5
    ∧ (∀ i, i < 5 →
      100 * (i + 1) ≤ (processSessionSeed hashPair hashDifficulty seed).1.getD i 0 ∧
      (processSessionSeed hashPair hashDifficulty seed).1.getD i 0 < 300 * (i + 1) ∧
      1 ≤ (processSessionSeed hashPair hashDifficulty seed).2.getD i 0 ∧
      (processSessionSeed hashPair hashDifficulty seed).2.getD i 0 ≤ 10) := by
  have hlen : (processSeedLoop hashPair hashDifficulty seed 0 5).length = 5 :=
    processSeedLoop_length hashPair hashDifficulty 5 seed 0
  refine ⟨fun seed2 h => by rw [h], ?_, ?_, ?_⟩
  · simp [processSessionSeed, hlen]
  · simp [processSessionSeed, hlen]
  · intro i hi
    have hb := processSeedLoop_bounds hashPair hashDifficulty 5 seed 0 i hi
    have h1 : (processSessionSeed hashPair hashDifficulty seed).1.getD i 0 =
        ((processSeedLoop hashPair hashDifficulty seed 0 5).getD i (0, 0)).1 :=
      map_fst_getD _ i (by omega)
    have h2 : (processSessionSeed hashPair hashDifficulty seed).2.getD i 0 =
        ((processSeedLoop hashPair hashDifficulty seed 0 5).getD i (0, 0)).2 :=
      map_snd_getD _ i (by omega)
    rw [h1, h2]
    simpa using hb

/-- Witness for C3 at a concrete hash pair and seed. -/
theorem threshold_generation_c3_witness :
    processSessionSeed (fun a b => a + b) (fun a => a) 1 =
      processSessionSeed (fun a b => a + b) (fun a => a) 1 ∧
    100 * (2 + 1) ≤ (processSessionSeed (fun a b => a + b) (fun a => a) 1).1.getD 2 0 ∧
    (processSessionSeed (fun a b => a + b) (fun a => a) 1).1.getD 2 0 < 300 * (2 + 1) ∧
    1 ≤ (processSessionSeed (fun a b => a + b) (fun a => a) 1).2.getD 2 0 ∧
    (processSessionSeed (fun a b => a + b) (fun a => a) 1).2.getD 2 0 ≤ 10 :=
  ⟨(threshold_generation_c3 (fun a b => a + b) (fun a => a) 1).1 1 rfl,
   (threshold_generation_c3 (fun a b => a + b) (fun a => a) 1).2.2.2 2 (by decide)⟩

/-- Embeds `CryptoCatcherRandomness.shouldTriggerLevelChange` (lines 257-268):
a pure read over the session's `levelChangeThresholds` and `levelDifficulties`
arrays.  The source loop runs `i` up to `thresholds.length` and reads
`difficulties[i]`; in every reachable session both arrays have the same length
(0 before the seed arrives, 5 afterwards), so the mismatched-length case is
dead code and is modelled as the loop falling through to `(false, 0)`. -/
def shouldTriggerLevelChange : List Nat → List Nat → Nat → Bool × Nat
  | [], _, _ => (false, 0)
  | _ :: _, [], _ => (false, 0)
  | t :: ts, d :: ds, currentScore =>
      if currentScore ≥ t then (true, d)
      else shouldTriggerLevelChange ts ds currentScore

/-- C5: `shouldTriggerLevelChange` scans the thresholds in order and returns
the first one the current score has met or exceeded, paired with that
threshold's difficulty; it returns `(false, 0)` when the score has met none of
them. -/
theorem level_trigger_scan_c5 :
    ∀ (ts ds : List Nat) (score : Nat), ts.length = ds.length →
      (∀ i, i < ts.length →
        (∀ j, j < i → score < ts.getD j 0) → ts.getD i 0 ≤ score →
        shouldTriggerLevelChange ts ds score = (true, ds.getD i 0))
      ∧ ((∀ i, i < ts.length → score < ts.getD i 0) →
        shouldTriggerLevelChange ts ds score = (false, 0)) := by
  intro ts
  induction ts with
  | nil =>
    intro ds score hlen
    exact ⟨fun i hi => by simp at hi, fun _ => rfl⟩
  | cons t ts2 ih =>
    intro ds score hlen
    cases ds with
    | nil => simp at hlen
    | cons d ds2 =>
      have hlen2 : ts2.length = ds2.length := by simpa using hlen
      constructor
      · intro i hi hbefore hmet
        cases i with
        | zero =>
          have ht : t ≤ score := by simpa using hmet
          simp only [shouldTriggerLevelChange, ge_iff_le, ht, if_true,
            List.getD_cons_zero]
        | succ i2 =>
          have h0 : score < t := by
            have := hbefore 0 (Nat.succ_pos i2)
            simpa using this
          simp only [shouldTriggerLevelChange, ge_iff_le,
            Nat.not_le.mpr h0, if_false, List.getD_cons_succ]
          exact (ih ds2 score hlen2).1 i2 (by simpa using Nat.lt_of_succ_lt_succ hi)
            (fun j hj => by simpa using hbefore (j + 1) (by omega))
            (by simpa using hmet)
      · intro hall
        have h0 : score < t := by simpa using hall 0 (by simp)
        simp only [shouldTriggerLevelChange, ge_iff_le, Nat.not_le.mpr h0, if_false]
        exact (ih ds2 score hlen2).2 fun i hi => by
          simpa using hall (i + 1) (by simpa using Nat.succ_lt_succ hi)

/-- Witness for C5 at concrete inputs: with thresholds `[150, 250, 120]` and
difficulties `[3, 7, 9]`, a score of 130 triggers index 2 first (indices 0 and
1 unmet), and a score of 50 triggers nothing. -/
theorem level_trigger_scan_c5_witness :
    shouldTriggerLevelChange [150, 250, 120] [3, 7, 9] 130 = (true, 9) ∧
    shouldTriggerLevelChange [150, 250, 120] [3, 7, 9] 50 = (false, 0) :=
  ⟨(level_trigger_scan_c5 [150, 250, 120] [3, 7, 9] 130 (by decide)).1 2 (by decide)
      (by decide) (by decide),
   (level_trigger_scan_c5 [150, 250, 120] [3, 7, 9] 50 (by decide)).2 (by decide)⟩

/-! ## LeaderboardMaintainer: UserManager leaderboards (src/unnamed/part_001) -/

/-- Embeds `UserManager.LeaderboardEntry` (part_001, lines 215-220).  An entry with
`player = 0` is the Solidity storage default, i.e. an empty slot. -/
structure LeaderboardEntryUM where
  player : Nat
  username : String
  score : Nat
  timestamp : Nat
deriving DecidableEq

/-- The Solidity storage default entry (empty slot). -/
def emptyEntry : LeaderboardEntryUM := ⟨0, "", 0, 0⟩

/-- Embeds `UserManager._insertIntoLeaderboard` (part_001, lines 424-445) on a
fixed-size array modelled as a list of length 100.  The source finds the first
position whose slot is empty (`player == address(0)`) or whose score the new
entry beats, shifts positions `[pos, 98]` down by one (discarding slot 99) and
writes the new entry at `pos`; it does nothing when no position qualifies.
The recursion below realises exactly that: reaching the qualifying position
consumes the prefix unchanged, and `dropLast` performs the shift. -/
def insertIntoLeaderboard (newEntry : LeaderboardEntryUM) :
    List LeaderboardEntryUM → List LeaderboardEntryUM
  | [] => []
  | x :: xs =>
      if x.player = 0 ∨ newEntry.score > x.score then
        newEntry :: (x :: xs).dropLast
      else x :: insertIntoLeaderboard newEntry xs

/-- The three fixed-capacity leaderboards of `UserManager`. -/
structure LeaderboardsState where
  allTime : List LeaderboardEntryUM
  weekly : List LeaderboardEntryUM
  daily : List LeaderboardEntryUM

/-- The deployed contract's initial leaderboards: three arrays of 100 default
entries. -/
def initLeaderboards : LeaderboardsState :=
  ⟨List.replicate 100 emptyEntry, List.replicate 100 emptyEntry,
    List.replicate 100 emptyEntry⟩

/-- Embeds `UserManager._updateLeaderboards` (part_001, lines 402-421): inserts the
entry built from the player, username, score and timestamp into all three
collections. -/
def updateLeaderboards (e : LeaderboardEntryUM) (s : LeaderboardsState) :
    LeaderboardsState :=
  ⟨insertIntoLeaderboard e s.allTime, insertIntoLeaderboard e s.weekly,
    insertIntoLeaderboard e s.daily⟩

/-- Ordering relation on slots: every occupied slot is preceded only by
occupied slots of a score at least as large.  `List.Pairwise` of this relation
says the occupied entries form a prefix sorted descending by score. -/
def lbRel (x y : LeaderboardEntryUM) : Prop :=
  y.player ≠ 0 → (x.player ≠ 0 ∧ y.score ≤ x.score)

/-- Sortedness of a leaderboard: descending by score among occupied slots,
with all occupied slots forming a prefix. -/
def lbSorted (l : List LeaderboardEntryUM) : Prop := List.Pairwise lbRel l

theorem insertIntoLeaderboard_length (e : LeaderboardEntryUM) :
    ∀ l : List LeaderboardEntryUM, (insertIntoLeaderboard e l).length = l.length := by
  intro l
  induction l with
  | nil => rfl
  | cons x xs ih =>
    by_cases h : x.player = 0 ∨ e.score > x.score
    · simp [insertIntoLeaderboard, h, List.length_dropLast]
    · simp [insertIntoLeaderboard, h, ih]

theorem insertIntoLeaderboard_mem (e : LeaderboardEntryUM) :
    ∀ (l : List LeaderboardEntryUM) (y : LeaderboardEntryUM),
      y ∈ insertIntoLeaderboard e l → y = e ∨ y ∈ l := by
  intro l
  induction l with
  | nil => intro y hy; simp [insertIntoLeaderboard] at hy
  | cons x xs ih =>
    intro y hy
    by_cases h : x.player = 0 ∨ e.score > x.score
    · rw [insertIntoLeaderboard, if_pos h] at hy
      rcases List.mem_cons.mp hy with h1 | h1
      · exact Or.inl h1
      · exact Or.inr (List.dropLast_subset _ h1)
    · rw [insertIntoLeaderboard, if_neg h] at hy
      rcases List.mem_cons.mp hy with h1 | h1
      · exact Or.inr (by simp [h1])
      · rcases ih y h1 with h2 | h2
        · exact Or.inl h2
        · exact Or.inr (List.mem_cons_of_mem _ h2)

theorem insertIntoLeaderboard_sorted {e : LeaderboardEntryUM}
    (he : e.player ≠ 0) :
    ∀ l : List LeaderboardEntryUM, lbSorted l →
      lbSorted (insertIntoLeaderboard e l) := by
  intro l
  induction l with
  | nil => intro _; exact List.Pairwise.nil
  | cons x xs ih =>
    intro hs
    rcases List.pairwise_cons.mp hs with ⟨hx, hxs⟩
    by_cases h : x.player = 0 ∨ e.score > x.score
    · rw [insertIntoLeaderboard, if_pos h]
      refine List.pairwise_cons.mpr ⟨?_, ?_⟩
      · intro y hy hyocc
        refine ⟨he, ?_⟩
        rcases List.mem_cons.mp (List.dropLast_subset _ hy) with h1 | h1
        · -- y is the old head x
          rcases h with hx0 | hxscore
          · exact absurd (h1 ▸ hx0) hyocc
          · exact le_of_lt (h1 ▸ hxscore)
        · -- y is deeper in the old list
          have hrel := hx y h1 hyocc
          rcases h with hx0 | hxscore
          · exact absurd hx0 hrel.1
          · exact le_of_lt (lt_of_le_of_lt hrel.2 hxscore)
      · exact hs.sublist (List.dropLast_sublist _)
    · rw [insertIntoLeaderboard, if_neg h]
      push_neg at h
      refine List.pairwise_cons.mpr ⟨?_, ih hxs⟩
      intro y hy
      rcases insertIntoLeaderboard_mem e xs y hy with h1 | h1
      · intro _
        exact ⟨h.1, h1 ▸ h.2⟩
      · exact hx y h1

theorem insertIntoLeaderboard_drop {e : LeaderboardEntryUM} :
    ∀ l : List LeaderboardEntryUM,
      (∀ x ∈ l, x.player ≠ 0) → (∀ x ∈ l, e.score ≤ x.score) →
      insertIntoLeaderboard e l = l := by
  intro l
  induction l with
  | nil => intro _ _; rfl
  | cons x xs ih =>
    intro hocc hge
    have hcond : ¬ (x.player = 0 ∨ e.score > x.score) := by
      push_neg
      exact ⟨hocc x (by simp), Nat.not_lt.mp (Nat.not_lt.mpr (hge x (by simp)))⟩
    rw [insertIntoLeaderboard, if_neg hcond,
      ih (fun y hy => hocc y (List.mem_cons_of_mem _ hy))
        (fun y hy => hge y (List.mem_cons_of_mem _ hy))]

/-- Invariant of one leaderboard: sorted and of size exactly 100. -/
def lbInv (l : List LeaderboardEntryUM) : Prop := lbSorted l ∧ l.length = 100

/-- Invariant of all three leaderboards. -/
def lbInv3 (s : LeaderboardsState) : Prop :=
  lbInv s.allTime ∧ lbInv s.weekly ∧ lbInv s.daily

theorem lbSorted_replicate (n : Nat) : lbSorted (List.replicate n emptyEntry) := by
  induction n with
  | zero => exact List.Pairwise.nil
  | succ m ih =>
    rw [List.replicate_succ]
    refine List.pairwise_cons.mpr ⟨?_, ih⟩
    intro y hy hyocc
    have : y = emptyEntry := List.eq_of_mem_replicate hy
    exact absurd (by rw [this]; rfl) hyocc

theorem lbInv3_preserved {e : LeaderboardEntryUM} (he : e.player ≠ 0)
    {s : LeaderboardsState} (hs : lbInv3 s) : lbInv3 (updateLeaderboards e s) := by
  rcases hs with ⟨⟨h1, h1l⟩, ⟨h2, h2l⟩, ⟨h3, h3l⟩⟩
  refine ⟨⟨insertIntoLeaderboard_sorted he _ h1, ?_⟩,
    ⟨insertIntoLeaderboard_sorted he _ h2, ?_⟩,
    ⟨insertIntoLeaderboard_sorted he _ h3, ?_⟩⟩ <;>
    simp only [updateLeaderboards] <;> rw [insertIntoLeaderboard_length] <;>
    assumption

theorem lbInv3_foldl :
    ∀ (es : List LeaderboardEntryUM) (s : LeaderboardsState),
      (∀ e ∈ es, e.player ≠ 0) → lbInv3 s →
      lbInv3 (es.foldl (fun acc e => updateLeaderboards e acc) s) := by
  intro es
  induction es with
  | nil => intro s _ hs; exact hs
  | cons e es2 ih =>
    intro s hocc hs
    exact ih _ (fun x hx => hocc x (List.mem_cons_of_mem _ hx))
      (lbInv3_preserved (hocc e (by simp)) hs)

/-- C6: after any sequence of inserts starting from the empty leaderboards,
each of the three collections is sorted descending by score among its occupied
slots and holds exactly 100 slots (hence at most 100 entries); and inserting
an entry whose score beats no entry of a full table leaves the table
unchanged. -/
theorem leaderboard_invariant_c6 :
    (∀ es : List LeaderboardEntryUM, (∀ e ∈ es, e.player ≠ 0) →
      lbInv3 (es.foldl (fun acc e => updateLeaderboards e acc) initLeaderboards))
    ∧ (∀ (l : List LeaderboardEntryUM) (e : LeaderboardEntryUM),
      (∀ x ∈ l, x.player ≠ 0) → (∀ x ∈ l, e.score ≤ x.score) →
      insertIntoLeaderboard e l = l) := by
  constructor
  · intro es hocc
    refine lbInv3_foldl es initLeaderboards hocc ?_
    refine ⟨⟨lbSorted_replicate 100, by simp [initLeaderboards]⟩,
      ⟨lbSorted_replicate 100, by simp [initLeaderboards]⟩,
      ⟨lbSorted_replicate 100, by simp [initLeaderboards]⟩⟩
  · intro l e h1 h2
    exact insertIntoLeaderboard_drop l h1 h2

/-- Witness for C6: a two-insert run preserves the invariant, and an insert of
a strictly lowest score into a full table is dropped. -/
theorem leaderboard_invariant_c6_witness :
    lbInv3 ([⟨1, "a", 5, 0⟩, ⟨2, "b", 9, 1⟩].foldl
      (fun acc e => updateLeaderboards e acc) initLeaderboards) ∧
    insertIntoLeaderboard ⟨2, "b", 3, 0⟩ (List.replicate 100 ⟨1, "a", 5, 0⟩) =
      List.replicate 100 ⟨1, "a", 5, 0⟩ :=
  ⟨leaderboard_invariant_c6.1 [⟨1, "a", 5, 0⟩, ⟨2, "b", 9, 1⟩] (by decide),
   leaderboard_invariant_c6.2 (List.replicate 100 ⟨1, "a", 5, 0⟩) ⟨2, "b", 3, 0⟩
     (fun x hx => by rw [List.eq_of_mem_replicate hx]; decide)
     (fun x hx => by rw [List.eq_of_mem_replicate hx]; decide)⟩

/-! ## SealedRevealRegistry: CryptoCatcherBlocklock (src/unnamed/part_004)

Ciphertexts, decryption keys and condition bytes are opaque: a ciphertext is a
`Nat` handle and the blocklock `_decrypt` + `abi.decode` pipeline (wrapped in
the source's try/catch) is a black-box parameter
`decrypt : Nat → Nat → Option Nat` (`none` models a decryption failure caught
by the `catch`). -/

/-- Embeds `CryptoCatcherBlocklock.SealType` (part_004, lines 26-30). -/
inductive SealType where
  | TIME_BASED
  | BLOCK_BASED
  | SCORE_BASED
deriving DecidableEq

/-- Embeds `CryptoCatcherBlocklock.SealedSession` (part_004, lines 13-24).  The
`condition` bytes are stored by the source but never read back by any modelled
operation; the `conditionTag` field keeps the encoded unlock value. -/
structure SealedSession where
  player : Nat
  sessionId : Nat
  requestId : Nat
  encryptedMultiplier : Nat
  conditionTag : Nat
  createdAt : Nat
  unlockTime : Nat
  isRevealed : Bool
  revealedMultiplier : Nat
  sealType : SealType
deriving DecidableEq

/-- The Solidity storage default `SealedSession` (all fields zero). -/
def defaultSeal : SealedSession :=
  ⟨0, 0, 0, 0, 0, 0, 0, false, 0, SealType.TIME_BASED⟩

/-- Embeds `MIN_MULTIPLIER` from `CryptoCatcherBlocklock`. -/
def MIN_MULTIPLIER : Nat := 50

/-- Embeds `MAX_MULTIPLIER` from `CryptoCatcherBlocklock`. -/
def MAX_MULTIPLIER : Nat := 1000

/-- The storage of `CryptoCatcherBlocklock`. -/
structure BlocklockState where
  seals : Nat → SealedSession
  playerSealedSessions : Nat → List Nat
  sessionIdToSealId : Nat → Nat
  nextSealId : Nat
  owner : Nat

/-- Freshly deployed contract storage: `nextSealId = 1`, everything else at
its Solidity default. -/
def initBlocklockState (owner : Nat) : BlocklockState :=
  ⟨fun _ => defaultSeal, fun _ => [], fun _ => 0, 1, owner⟩

/-- The loop of `CryptoCatcherBlocklock._findSealByRequestId` (part_004,
lines 218-225): scan ids upward from `i`, `fuel` iterations. -/
def findSealFrom (seals : Nat → SealedSession) (requestId : Nat) :
    Nat → Nat → Nat
  | _, 0 => 0
  | i, fuel + 1 =>
      if (seals i).requestId = requestId then i
      else findSealFrom seals requestId (i + 1) fuel

/-- Embeds `CryptoCatcherBlocklock._findSealByRequestId`: scans ids
`1 .. nextSealId - 1` and returns the first whose stored `requestId` matches,
or 0. -/
def findSealByRequestId (s : BlocklockState) (requestId : Nat) : Nat :=
  findSealFrom s.seals requestId 1 (s.nextSealId - 1)

/-- Embeds `CryptoCatcherBlocklock._onBlocklockReceived` (part_004, lines 182-208).
Emitted events carry no state, so the failure branches are the identity. -/
def onBlocklockReceived (decrypt : Nat → Nat → Option Nat)
    (requestId key : Nat) (s : BlocklockState) : BlocklockState :=
  let sealId := findSealByRequestId s requestId
  if sealId = 0 then s
  else
    let sl := s.seals sealId
    match decrypt sl.encryptedMultiplier key with
    | none => s
    | some multiplier =>
        if multiplier < MIN_MULTIPLIER ∨ multiplier > MAX_MULTIPLIER then s
        else
          { s with seals := (Function.update s.seals sealId
              { sl with isRevealed := true, revealedMultiplier := multiplier }) }

/-- Embeds `CryptoCatcherBlocklock.emergencyReveal` (part_004, lines 304-315),
including the `onlyOwner` modifier.  `none` models a revert (state
unchanged). -/
def emergencyReveal (s : BlocklockState) (caller sealId multiplier now : Nat) :
    Option BlocklockState :=
  if caller ≠ s.owner then none
  else
    let sl := s.seals sealId
    if sl.isRevealed then none
    else if ¬ (now > sl.createdAt + 24 * 60 * 60) then none
    else if ¬ (multiplier ≥ MIN_MULTIPLIER ∧ multiplier ≤ MAX_MULTIPLIER) then none
    else
      some { s with seals := (Function.update s.seals sealId
          { sl with isRevealed := true, revealedMultiplier := multiplier }) }

/-- Embeds `CryptoCatcherBlocklock.createTimeSealedSession` (part_004, lines 79-126).
The blocklock request id returned by the external sender is the `requestId`
argument; the payment check of the wrapper concerns only `msg.value` and is
outside the stored state. -/
def createTimeSealedSession (s : BlocklockState)
    (player sessionId unlockDelayMinutes encryptedMultiplier requestId now : Nat) :
    Option BlocklockState :=
  if s.sessionIdToSealId sessionId ≠ 0 then none
  else
    let sealId := s.nextSealId
    let unlockTime := now + unlockDelayMinutes * 60
    some { seals := (Function.update s.seals sealId
            ⟨player, sessionId, requestId, encryptedMultiplier, unlockTime,
              now, unlockTime, false, 0, SealType.TIME_BASED⟩),
           playerSealedSessions := (Function.update s.playerSealedSessions player
            (s.playerSealedSessions player ++ [sealId])),
           sessionIdToSealId := Function.update s.sessionIdToSealId sessionId sealId,
           nextSealId := s.nextSealId + 1,
           owner := s.owner }

/-- Embeds `CryptoCatcherBlocklock.createBlockSealedSession` (part_004,
lines 129-179). -/
def createBlockSealedSession (s : BlocklockState)
    (player sessionId unlockBlock encryptedMultiplier requestId now blockNumber : Nat) :
    Option BlocklockState :=
  if s.sessionIdToSealId sessionId ≠ 0 then none
  else if unlockBlock ≤ blockNumber then none
  else
    let sealId := s.nextSealId
    some { seals := (Function.update s.seals sealId
            ⟨player, sessionId, requestId, encryptedMultiplier, unlockBlock,
              now, unlockBlock, false, 0, SealType.BLOCK_BASED⟩),
           playerSealedSessions := (Function.update s.playerSealedSessions player
            (s.playerSealedSessions player ++ [sealId])),
           sessionIdToSealId := Function.update s.sessionIdToSealId sessionId sealId,
           nextSealId := s.nextSealId + 1,
           owner := s.owner }

/-- The externally triggerable mutating operations of
`CryptoCatcherBlocklock`. -/
inductive BlocklockOp where
  | createTime (player sessionId unlockDelayMinutes encryptedMultiplier requestId now : Nat)
  | createBlock (player sessionId unlockBlock encryptedMultiplier requestId now blockNumber : Nat)
  | deliver (requestId key : Nat)
  | emergency (caller sealId multiplier now : Nat)
deriving DecidableEq

/-- One transition: a reverting call (`none`) leaves the storage unchanged. -/
def applyBlocklockOp (decrypt : Nat → Nat → Option Nat)
    (s : BlocklockState) : BlocklockOp → BlocklockState
  | .createTime p sid d em rid now =>
      (createTimeSealedSession s p sid d em rid now).getD s
  | .createBlock p sid ub em rid now bn =>
      (createBlockSealedSession s p sid ub em rid now bn).getD s
  | .deliver rid key => onBlocklockReceived decrypt rid key s
  | .emergency c id m now => (emergencyReveal s c id m now).getD s

/-- Run a sequence of operations. -/
def runBlocklock (decrypt : Nat → Nat → Option Nat) (s : BlocklockState)
    (ops : List BlocklockOp) : BlocklockState :=
  ops.foldl (applyBlocklockOp decrypt) s

/-- The multiplier-range invariant: every revealed seal carries a multiplier
in `[MIN_MULTIPLIER, MAX_MULTIPLIER]`. -/
def multiplierInv (s : BlocklockState) : Prop :=
  ∀ i, (s.seals i).isRevealed = true →
    MIN_MULTIPLIER ≤ (s.seals i).revealedMultiplier ∧
      (s.seals i).revealedMultiplier ≤ MAX_MULTIPLIER

theorem multiplierInv_apply (decrypt : Nat → Nat → Option Nat)
    (op : BlocklockOp) {s : BlocklockState} (h : multiplierInv s) :
    multiplierInv (applyBlocklockOp decrypt s op) := by
  cases op with
  | createTime p sid d em rid now =>
    simp only [applyBlocklockOp, createTimeSealedSession]
    split
    · exact h
    · intro i hrev
      by_cases hi : i = s.nextSealId
      · subst hi
        rw [Option.getD_some] at hrev
        simp only [Function.update_same] at hrev
        exact absurd hrev (by simp)
      · rw [Option.getD_some] at hrev ⊢
        simp only [Function.update_noteq hi] at hrev ⊢
        exact h i hrev
  | createBlock p sid ub em rid now bn =>
    simp only [applyBlocklockOp, createBlockSealedSession]
    split
    · exact h
    · split
      · exact h
      · intro i hrev
        by_cases hi : i = s.nextSealId
        · subst hi
          rw [Option.getD_some] at hrev
          simp only [Function.update_same] at hrev
          exact absurd hrev (by simp)
        · rw [Option.getD_some] at hrev ⊢
          simp only [Function.update_noteq hi] at hrev ⊢
          exact h i hrev
  | deliver rid key =>
    simp only [applyBlocklockOp, onBlocklockReceived]
    split
    · exact h
    · split
      · exact h
      · split
        · exact h
        · rename_i m hdec hrange
          intro i hrev
          by_cases hi : i = findSealByRequestId s rid
          · subst hi
            simp only [Function.update_same] at hrev ⊢
            omega
          · simp only [Function.update_noteq hi] at hrev ⊢
            exact h i hrev
  | emergency c id m now =>
    simp only [applyBlocklockOp, emergencyReveal]
    split
    · exact h
    · split
      · exact h
      · split
        · exact h
        · split
          · exact h
          · rename_i hc hrev0 htime hrange
            intro i hrev
            rw [Option.getD_some] at hrev ⊢
            by_cases hi : i = id
            · subst hi
              simp only [Function.update_same] at hrev ⊢
              omega
            · simp only [Function.update_noteq hi] at hrev ⊢
              exact h i hrev

theorem multiplierInv_run (decrypt : Nat → Nat → Option Nat) :
    ∀ (ops : List BlocklockOp) (s : BlocklockState), multiplierInv s →
      multiplierInv (runBlocklock decrypt s ops) := by
  intro ops
  induction ops with
  | nil => intro s hs; exact hs
  | cons op ops2 ih =>
    intro s hs
    exact ih _ (multiplierInv_apply decrypt op hs)

/-- C2: in every reachable state, every revealed seal's multiplier lies in
`[50, 1000]`; moreover a delivery whose decrypted multiplier is out of range
leaves the state (hence the session's unrevealed status) unchanged. -/
theorem multiplier_bound_c2 :
    (∀ (decrypt : Nat → Nat → Option Nat) (owner : Nat) (ops : List BlocklockOp),
      multiplierInv (runBlocklock decrypt (initBlocklockState owner) ops))
    ∧ (∀ (decrypt : Nat → Nat → Option Nat) (rid key : Nat) (s : BlocklockState)
        (m : Nat),
      decrypt ((s.seals (findSealByRequestId s rid)).encryptedMultiplier) key = some m →
      (m < MIN_MULTIPLIER ∨ m > MAX_MULTIPLIER) →
      onBlocklockReceived decrypt rid key s = s) := by
  constructor
  · intro decrypt owner ops
    refine multiplierInv_run decrypt ops _ ?_
    intro i hrev
    exact absurd hrev (by simp [initBlocklockState, defaultSeal])
  · intro decrypt rid key s m hdec hrange
    simp only [onBlocklockReceived]
    split
    · rfl
    · simp only [hdec]
      rw [if_pos hrange]

/-- Witness for C2 on a concrete run: a seal created and revealed through the
callback satisfies the bound. -/
theorem multiplier_bound_c2_witness :
    MIN_MULTIPLIER ≤
      (((runBlocklock (fun c _ => some c) (initBlocklockState 0)
          [BlocklockOp.createTime 7 9 0 100 5 0, BlocklockOp.deliver 5 11]).seals 1).revealedMultiplier) ∧
    (((runBlocklock (fun c _ => some c) (initBlocklockState 0)
        [BlocklockOp.createTime 7 9 0 100 5 0, BlocklockOp.deliver 5 11]).seals 1).revealedMultiplier) ≤
      MAX_MULTIPLIER :=
  (multiplier_bound_c2.1 (fun c _ => some c) 0
    [BlocklockOp.createTime 7 9 0 100 5 0, BlocklockOp.deliver 5 11]) 1 (by decide)

/-- A concrete sealed state for exercising `emergencyReveal`: one time-based
seal (id 1) created at timestamp 0. -/
def oneSealState : BlocklockState :=
  (createTimeSealedSession (initBlocklockState 0) 7 9 0 100 5 0).getD
    (initBlocklockState 0)

/-- C8 counterexample: at a wall time of exactly 24 hours after creation
(createdAt = 0, now = 86400) the elapsed time is at least 24 hours, the seal
is unrevealed, the multiplier 100 is in range and the caller is the owner, yet
`emergencyReveal` rejects the call — the source requires *strictly more* than
24 hours (`block.timestamp > createdAt + 24 hours`), so the claim's
"at least 24 hours" acceptance condition is falsified at this input. -/
theorem emergency_reveal_c8_counterexample :
    (oneSealState.seals 1).isRevealed = false ∧
    (oneSealState.seals 1).createdAt = 0 ∧
    86400 - (oneSealState.seals 1).createdAt ≥ 24 * 60 * 60 ∧
    MIN_MULTIPLIER ≤ 100 ∧ 100 ≤ MAX_MULTIPLIER ∧
    0 = oneSealState.owner ∧
    (emergencyReveal oneSealState 0 1 100 86400).isSome = false := by
  decide

/-- C8 (amended): an owner call of `emergencyReveal(sealId, multiplier)`
succeeds exactly when the seal is not yet revealed, the wall time is strictly
more than 24 hours past the seal's creation, and the multiplier lies in
`[50, 1000]`; on success exactly that seal is marked revealed with the given
multiplier, and on failure the call reverts leaving the state unchanged. -/
theorem emergency_reveal_c8 :
    ∀ (s : BlocklockState) (caller sealId multiplier now : Nat),
      caller = s.owner →
      ((emergencyReveal s caller sealId multiplier now).isSome ↔
        ((s.seals sealId).isRevealed = false ∧
          now > (s.seals sealId).createdAt + 24 * 60 * 60 ∧
          MIN_MULTIPLIER ≤ multiplier ∧ multiplier ≤ MAX_MULTIPLIER))
      ∧ (∀ s2, emergencyReveal s caller sealId multiplier now = some s2 →
          s2 = { s with seals := (Function.update s.seals sealId
            { s.seals sealId with isRevealed := true, revealedMultiplier := multiplier }) })
      ∧ (∀ decrypt : Nat → Nat → Option Nat,
          emergencyReveal s caller sealId multiplier now = none →
          applyBlocklockOp decrypt s
            (BlocklockOp.emergency caller sealId multiplier now) = s) := by
  intro s caller sealId multiplier now hown
  refine ⟨?_, ?_, ?_⟩
  · simp only [emergencyReveal, if_neg (by simp [hown] : ¬ caller ≠ s.owner)]
    constructor
    · intro hsome
      by_cases h1 : (s.seals sealId).isRevealed
      · rw [if_pos h1] at hsome; simp at hsome
      · rw [if_neg h1] at hsome
        by_cases h2 : now > (s.seals sealId).createdAt + 24 * 60 * 60
        · rw [if_neg (by simpa using h2)] at hsome
          by_cases h3 : MIN_MULTIPLIER ≤ multiplier ∧ multiplier ≤ MAX_MULTIPLIER
          · exact ⟨by simpa using h1, h2, h3.1, h3.2⟩
          · rw [if_pos (by simpa using h3)] at hsome; simp at hsome
        · rw [if_pos (by simpa using h2)] at hsome; simp at hsome
    · rintro ⟨h1, h2, h3, h4⟩
      rw [if_neg (by simp [h1]), if_neg (by simpa using h2),
        if_neg (by simp [h3, h4])]
      simp
  · intro s2 hsome
    simp only [emergencyReveal, if_neg (by simp [hown] : ¬ caller ≠ s.owner)] at hsome
    by_cases h1 : (s.seals sealId).isRevealed
    · rw [if_pos h1] at hsome; simp at hsome
    · rw [if_neg h1] at hsome
      by_cases h2 : ¬ (now > (s.seals sealId).createdAt + 24 * 60 * 60)
      · rw [if_pos h2] at hsome; simp at hsome
      · rw [if_neg h2] at hsome
        by_cases h3 : ¬ (MIN_MULTIPLIER ≤ multiplier ∧ multiplier ≤ MAX_MULTIPLIER)
        · rw [if_pos h3] at hsome; simp at hsome
        · rw [if_neg h3] at hsome
          exact (Option.some_inj.mp hsome).symm
  · intro decrypt hnone
    simp only [applyBlocklockOp, hnone, Option.getD_none]

/-- Witness for C8 at a concrete input: one second past the 24-hour mark the
emergency reveal of seal 1 succeeds. -/
theorem emergency_reveal_c8_witness :
    ((emergencyReveal oneSealState 0 1 100 86401).isSome ↔
      ((oneSealState.seals 1).isRevealed = false ∧
        86401 > (oneSealState.seals 1).createdAt + 24 * 60 * 60 ∧
        MIN_MULTIPLIER ≤ 100 ∧ 100 ≤ MAX_MULTIPLIER)) ∧
    (emergencyReveal oneSealState 0 1 100 86401).isSome = true :=
  ⟨(emergency_reveal_c8 oneSealState 0 1 100 86401 (by decide)).1, by decide⟩

/-- C10: `emergencyReveal` performs no existence check on `sealId`.  For a
seal id whose stored record is the all-default value (never created,
`createdAt = 0`), an owner call with an in-range multiplier at any wall time
strictly greater than 24 hours succeeds and marks the nonexistent seal
revealed with the supplied multiplier. -/
theorem emergency_reveal_missing_seal_c10 :
    ∀ (s : BlocklockState) (caller sealId multiplier now : Nat),
      s.seals sealId = defaultSeal → caller = s.owner →
      MIN_MULTIPLIER ≤ multiplier → multiplier ≤ MAX_MULTIPLIER →
      now > 24 * 60 * 60 →
      ∃ s2, emergencyReveal s caller sealId multiplier now = some s2 ∧
        (s2.seals sealId).isRevealed = true ∧
        (s2.seals sealId).revealedMultiplier = multiplier := by
  intro s caller sealId multiplier now hdef hown hmin hmax htime
  have h1 : (s.seals sealId).isRevealed = false := by rw [hdef]; rfl
  have h2 : (s.seals sealId).createdAt = 0 := by rw [hdef]; rfl
  have hns : emergencyReveal s caller sealId multiplier now =
      some { s with seals := (Function.update s.seals sealId
        { s.seals sealId with isRevealed := true, revealedMultiplier := multiplier }) } := by
    simp only [emergencyReveal, if_neg (by simp [hown] : ¬ caller ≠ s.owner)]
    rw [if_neg (by simp [h1]), if_neg (by simp [h2]; omega),
      if_neg (by simp [hmin, hmax])]
  exact ⟨_, hns, by simp [Function.update_same], by simp [Function.update_same]⟩

/-- Witness for C10: emergency-revealing the never-created seal 42 of a fresh
deployment succeeds. -/
theorem emergency_reveal_missing_seal_c10_witness :
    ∃ s2, emergencyReveal (initBlocklockState 3) 3 42 100 86401 = some s2 ∧
      (s2.seals 42).isRevealed = true ∧ (s2.seals 42).revealedMultiplier = 100 :=
  emergency_reveal_missing_seal_c10 (initBlocklockState 3) 3 42 100 86401
    rfl rfl (by decide) (by decide) (by decide)

theorem findSealFrom_congr {seals1 seals2 : Nat → SealedSession}
    (h : ∀ k, (seals2 k).requestId = (seals1 k).requestId) (rid : Nat) :
    ∀ (fuel i : Nat), findSealFrom seals2 rid i fuel = findSealFrom seals1 rid i fuel := by
  intro fuel
  induction fuel with
  | zero => intro i; rfl
  | succ f ih =>
    intro i
    simp only [findSealFrom]
    rw [h i]
    by_cases hc : (seals1 i).requestId = rid
    · simp [hc]
    · simp [hc, ih (i + 1)]

theorem findSealFrom_requestId {seals : Nat → SealedSession} {rid : Nat} :
    ∀ (fuel i : Nat), findSealFrom seals rid i fuel ≠ 0 →
      (seals (findSealFrom seals rid i fuel)).requestId = rid := by
  intro fuel
  induction fuel with
  | zero => intro i h; simp [findSealFrom] at h
  | succ f ih =>
    intro i h
    simp only [findSealFrom] at h ⊢
    by_cases hc : (seals i).requestId = rid
    · simp [hc]
    · simp only [hc, if_false] at h ⊢
      exact ih (i + 1) h

theorem findSealByRequestId_requestId {s : BlocklockState} {rid : Nat}
    (h : findSealByRequestId s rid ≠ 0) :
    (s.seals (findSealByRequestId s rid)).requestId = rid :=
  findSealFrom_requestId _ 1 h

/-- Two states agree on everything `_onBlocklockReceived` reads before
writing: the scan bound, the stored request ids and the stored
ciphertexts. -/
def requestProfileEq (s s2 : BlocklockState) : Prop :=
  s2.nextSealId = s.nextSealId ∧
  (∀ i, (s2.seals i).requestId = (s.seals i).requestId) ∧
  (∀ i, (s2.seals i).encryptedMultiplier = (s.seals i).encryptedMultiplier)

/-- Invariant carried from the first delivery of `(rid, key)` on base state
`s`: the request profile is intact, and whenever that delivery succeeded, the
targeted seal still records exactly its outcome. -/
def deliveredInv (decrypt : Nat → Nat → Option Nat) (rid key : Nat)
    (s s2 : BlocklockState) : Prop :=
  requestProfileEq s s2 ∧
  ∀ m, findSealByRequestId s rid ≠ 0 →
    decrypt ((s.seals (findSealByRequestId s rid)).encryptedMultiplier) key = some m →
    ¬ (m < MIN_MULTIPLIER ∨ m > MAX_MULTIPLIER) →
    (s2.seals (findSealByRequestId s rid)).isRevealed = true ∧
    (s2.seals (findSealByRequestId s rid)).revealedMultiplier = m

theorem findSeal_eq_of_profile {s s2 : BlocklockState}
    (h : requestProfileEq s s2) (rid : Nat) :
    findSealByRequestId s2 rid = findSealByRequestId s rid := by
  unfold findSealByRequestId
  rw [h.1, findSealFrom_congr h.2.1 rid _ 1]

theorem deliver_noop {decrypt : Nat → Nat → Option Nat} {rid key : Nat}
    {s s2 : BlocklockState} (h : deliveredInv decrypt rid key s s2) :
    onBlocklockReceived decrypt rid key s2 = s2 := by
  obtain ⟨hp, hrev⟩ := h
  have hfind := findSeal_eq_of_profile hp rid
  simp only [onBlocklockReceived, hfind]
  by_cases hj0 : findSealByRequestId s rid = 0
  · rw [if_pos hj0]
  · rw [if_neg hj0]
    cases hdec2 : decrypt ((s2.seals (findSealByRequestId s rid)).encryptedMultiplier) key with
    | none => rfl
    | some m =>
      dsimp only
      by_cases hrange : m < MIN_MULTIPLIER ∨ m > MAX_MULTIPLIER
      · rw [if_pos hrange]
      · rw [if_neg hrange]
        have hdec : decrypt ((s.seals (findSealByRequestId s rid)).encryptedMultiplier) key
            = some m := by
          rw [hp.2.2 (findSealByRequestId s rid)] at hdec2
          exact hdec2
        obtain ⟨hr1, hr2⟩ := hrev m hj0 hdec hrange
        have hseal : ({ s2.seals (findSealByRequestId s rid) with
            isRevealed := true, revealedMultiplier := m } : SealedSession) =
            s2.seals (findSealByRequestId s rid) := by
          cases hsl : s2.seals (findSealByRequestId s rid)
          rw [hsl] at hr1 hr2
          simp_all
        rw [hseal, Function.update_eq_self]

theorem deliver_establishes (decrypt : Nat → Nat → Option Nat) (rid key : Nat)
    (s : BlocklockState) :
    deliveredInv decrypt rid key s (onBlocklockReceived decrypt rid key s) := by
  simp only [onBlocklockReceived]
  by_cases hj0 : findSealByRequestId s rid = 0
  · rw [if_pos hj0]
    exact ⟨⟨rfl, fun i => rfl, fun i => rfl⟩, fun m hj _ _ => absurd hj0 hj⟩
  · rw [if_neg hj0]
    cases hdec : decrypt ((s.seals (findSealByRequestId s rid)).encryptedMultiplier) key with
    | none =>
      refine ⟨⟨rfl, fun i => rfl, fun i => rfl⟩, fun m hj hd _ => ?_⟩
      rw [hdec] at hd
      exact Option.noConfusion hd
    | some m =>
      dsimp only
      by_cases hrange : m < MIN_MULTIPLIER ∨ m > MAX_MULTIPLIER
      · rw [if_pos hrange]
        refine ⟨⟨rfl, fun i => rfl, fun i => rfl⟩, fun m2 hj hd hr => ?_⟩
        rw [hdec] at hd
        have hm := Option.some.inj hd
        subst hm
        exact absurd hrange hr
      · rw [if_neg hrange]
        refine ⟨⟨rfl, ?_, ?_⟩, ?_⟩
        · intro i
          by_cases hi : i = findSealByRequestId s rid
          · subst hi; simp [Function.update_same]
          · simp [Function.update_noteq hi]
        · intro i
          by_cases hi : i = findSealByRequestId s rid
          · subst hi; simp [Function.update_same]
          · simp [Function.update_noteq hi]
        · intro m2 hj hd hr
          rw [hdec] at hd
          have hm := Option.some.inj hd
          subst hm
          constructor
          · simp [Function.update_same]
          · simp [Function.update_same]

/-- Operations that may interleave between two deliveries of the same request:
any `emergencyReveal`, and any delivery that is consistent with the oracle's
at-least-once semantics (a delivery of the same request id carries the same
key). -/
def revealOnly (rid key : Nat) : BlocklockOp → Bool
  | .deliver rid2 key2 => rid2 != rid || key2 == key
  | .emergency _ _ _ _ => true
  | _ => false

theorem deliveredInv_step {decrypt : Nat → Nat → Option Nat} {rid key : Nat}
    {s s2 : BlocklockState} (h : deliveredInv decrypt rid key s s2)
    (op : BlocklockOp) (hop : revealOnly rid key op = true) :
    deliveredInv decrypt rid key s (applyBlocklockOp decrypt s2 op) := by
  cases op with
  | createTime p sid d em rid2 now => simp [revealOnly] at hop
  | createBlock p sid ub em rid2 now bn => simp [revealOnly] at hop
  | deliver rid2 key2 =>
    by_cases heq : rid2 = rid
    · have hkey : key2 = key := by
        simp [revealOnly, heq] at hop
        exact hop
      rw [show applyBlocklockOp decrypt s2 (BlocklockOp.deliver rid2 key2) = s2 from by
        show onBlocklockReceived decrypt rid2 key2 s2 = s2
        rw [heq, hkey]
        exact deliver_noop h]
      exact h
    · show deliveredInv decrypt rid key s (onBlocklockReceived decrypt rid2 key2 s2)
      simp only [onBlocklockReceived]
      by_cases hj20 : findSealByRequestId s2 rid2 = 0
      · rw [if_pos hj20]; exact h
      · rw [if_neg hj20]
        cases hdec2 : decrypt ((s2.seals (findSealByRequestId s2 rid2)).encryptedMultiplier)
            key2 with
        | none => exact h
        | some m2 =>
          dsimp only
          by_cases hrange2 : m2 < MIN_MULTIPLIER ∨ m2 > MAX_MULTIPLIER
          · rw [if_pos hrange2]; exact h
          · rw [if_neg hrange2]
            obtain ⟨⟨hnext, hreq, henc⟩, hrev⟩ := h
            have hj2rid : (s2.seals (findSealByRequestId s2 rid2)).requestId = rid2 :=
              findSealByRequestId_requestId hj20
            refine ⟨⟨hnext, ?_, ?_⟩, ?_⟩
            · intro i
              by_cases hi : i = findSealByRequestId s2 rid2
              · subst hi
                simp [Function.update_same, hreq]
              · simp [Function.update_noteq hi, hreq]
            · intro i
              by_cases hi : i = findSealByRequestId s2 rid2
              · subst hi
                simp [Function.update_same, henc]
              · simp [Function.update_noteq hi, henc]
            · intro m hj hdec hrange
              obtain ⟨hr1, hr2⟩ := hrev m hj hdec hrange
              have hjrid : (s.seals (findSealByRequestId s rid)).requestId = rid :=
                findSealByRequestId_requestId hj
              have hne : findSealByRequestId s rid ≠ findSealByRequestId s2 rid2 := by
                intro hcontra
                apply heq
                have e2 : (s2.seals (findSealByRequestId s rid)).requestId = rid := by
                  rw [hreq]; exact hjrid
                rw [hcontra] at e2
                exact hj2rid.symm.trans e2
              constructor
              · simp [Function.update_noteq hne, hr1]
              · simp [Function.update_noteq hne, hr2]
  | emergency c id m3 t =>
    show deliveredInv decrypt rid key s ((emergencyReveal s2 c id m3 t).getD s2)
    simp only [emergencyReveal]
    by_cases h1 : c ≠ s2.owner
    · rw [if_pos h1, Option.getD_none]; exact h
    · rw [if_neg h1]
      by_cases h2 : (s2.seals id).isRevealed = true
      · rw [if_pos h2, Option.getD_none]; exact h
      · rw [if_neg h2]
        by_cases h3 : ¬ (t > (s2.seals id).createdAt + 24 * 60 * 60)
        · rw [if_pos h3, Option.getD_none]; exact h
        · rw [if_neg h3]
          by_cases h4 : ¬ (m3 ≥ MIN_MULTIPLIER ∧ m3 ≤ MAX_MULTIPLIER)
          · rw [if_pos h4, Option.getD_none]; exact h
          · rw [if_neg h4, Option.getD_some]
            obtain ⟨⟨hnext, hreq, henc⟩, hrev⟩ := h
            refine ⟨⟨hnext, ?_, ?_⟩, ?_⟩
            · intro i
              by_cases hi : i = id
              · subst hi; simp [Function.update_same, hreq]
              · simp [Function.update_noteq hi, hreq]
            · intro i
              by_cases hi : i = id
              · subst hi; simp [Function.update_same, henc]
              · simp [Function.update_noteq hi, henc]
            · intro m hj hdec hrange
              obtain ⟨hr1, hr2⟩ := hrev m hj hdec hrange
              have hne : findSealByRequestId s rid ≠ id := by
                intro hcontra
                rw [hcontra] at hr1
                exact h2 hr1
              constructor
              · simp [Function.update_noteq hne, hr1]
              · simp [Function.update_noteq hne, hr2]

theorem deliveredInv_run {decrypt : Nat → Nat → Option Nat} {rid key : Nat}
    {s : BlocklockState} :
    ∀ (w : List BlocklockOp) (s2 : BlocklockState),
      deliveredInv decrypt rid key s s2 →
      (∀ op ∈ w, revealOnly rid key op = true) →
      deliveredInv decrypt rid key s (runBlocklock decrypt s2 w) := by
  intro w
  induction w with
  | nil => intro s2 h _; exact h
  | cons op w2 ih =>
    intro s2 h hall
    exact ih _ (deliveredInv_step h op (hall op (by simp)))
      (fun op2 hop2 => hall op2 (List.mem_cons_of_mem _ hop2))

theorem onBlocklockReceived_nextSealId (decrypt : Nat → Nat → Option Nat)
    (rid key : Nat) (s : BlocklockState) :
    (onBlocklockReceived decrypt rid key s).nextSealId = s.nextSealId := by
  simp only [onBlocklockReceived]
  split
  · rfl
  · split
    · rfl
    · split
      · rfl
      · rfl

theorem emergencyReveal_getD_nextSealId (s : BlocklockState) (c id m t : Nat) :
    ((emergencyReveal s c id m t).getD s).nextSealId = s.nextSealId := by
  simp only [emergencyReveal]
  split
  · rfl
  · split
    · rfl
    · split
      · rfl
      · split
        · rfl
        · rfl

theorem applyBlocklockOp_nextSealId (decrypt : Nat → Nat → Option Nat)
    (op : BlocklockOp) (s : BlocklockState) :
    s.nextSealId ≤ (applyBlocklockOp decrypt s op).nextSealId := by
  cases op with
  | createTime p sid d em rid now =>
    simp only [applyBlocklockOp, createTimeSealedSession]
    split
    · simp
    · simp only [Option.getD_some]
      exact Nat.le_succ _
  | createBlock p sid ub em rid now bn =>
    simp only [applyBlocklockOp, createBlockSealedSession]
    split
    · simp
    · split
      · simp
      · simp only [Option.getD_some]
        exact Nat.le_succ _
  | deliver rid key =>
    simp only [applyBlocklockOp]
    rw [onBlocklockReceived_nextSealId]
  | emergency c id m t =>
    simp only [applyBlocklockOp]
    rw [emergencyReveal_getD_nextSealId]

theorem applyBlocklockOp_revealed (decrypt : Nat → Nat → Option Nat)
    (op : BlocklockOp) (s : BlocklockState) (i : Nat)
    (hi : i < s.nextSealId) (hrev : (s.seals i).isRevealed = true) :
    ((applyBlocklockOp decrypt s op).seals i).isRevealed = true := by
  cases op with
  | createTime p sid d em rid now =>
    simp only [applyBlocklockOp, createTimeSealedSession]
    split
    · simpa using hrev
    · rw [Option.getD_some]
      have hne : i ≠ s.nextSealId := by omega
      simp [Function.update_noteq hne, hrev]
  | createBlock p sid ub em rid now bn =>
    simp only [applyBlocklockOp, createBlockSealedSession]
    split
    · simpa using hrev
    · split
      · simpa using hrev
      · rw [Option.getD_some]
        have hne : i ≠ s.nextSealId := by omega
        simp [Function.update_noteq hne, hrev]
  | deliver rid key =>
    simp only [applyBlocklockOp, onBlocklockReceived]
    split
    · exact hrev
    · split
      · exact hrev
      · split
        · exact hrev
        · by_cases hi2 : i = findSealByRequestId s rid
          · subst hi2; simp [Function.update_same]
          · simp [Function.update_noteq hi2, hrev]
  | emergency c id m t =>
    simp only [applyBlocklockOp, emergencyReveal]
    split
    · simpa using hrev
    · split
      · simpa using hrev
      · split
        · simpa using hrev
        · split
          · simpa using hrev
          · rw [Option.getD_some]
            by_cases hi2 : i = id
            · subst hi2; simp [Function.update_same]
            · simp [Function.update_noteq hi2, hrev]

/-- C1: re-delivering the reveal callback is idempotent — immediately, and
across any interleaving of `emergencyReveal` calls and oracle-consistent
deliveries — and `isRevealed`, once set, persists under every later operation,
so a seal transitions to the revealed state at most once in its lifetime. -/
theorem reveal_idempotent_c1 :
    (∀ (decrypt : Nat → Nat → Option Nat) (rid key : Nat) (s : BlocklockState),
      onBlocklockReceived decrypt rid key (onBlocklockReceived decrypt rid key s) =
        onBlocklockReceived decrypt rid key s)
    ∧ (∀ (decrypt : Nat → Nat → Option Nat) (rid key : Nat) (s : BlocklockState)
        (w : List BlocklockOp), (∀ op ∈ w, revealOnly rid key op = true) →
      onBlocklockReceived decrypt rid key
          (runBlocklock decrypt (onBlocklockReceived decrypt rid key s) w) =
        runBlocklock decrypt (onBlocklockReceived decrypt rid key s) w)
    ∧ (∀ (decrypt : Nat → Nat → Option Nat) (s : BlocklockState)
        (w : List BlocklockOp) (i : Nat), i < s.nextSealId →
      (s.seals i).isRevealed = true →
      ((runBlocklock decrypt s w).seals i).isRevealed = true) := by
  refine ⟨?_, ?_, ?_⟩
  · intro decrypt rid key s
    exact deliver_noop (deliver_establishes decrypt rid key s)
  · intro decrypt rid key s w hall
    exact deliver_noop (deliveredInv_run w _ (deliver_establishes decrypt rid key s) hall)
  · intro decrypt s w
    induction w generalizing s with
    | nil => intro i _ h; exact h
    | cons op w2 ih =>
      intro i hi hrev
      exact ih _ i (lt_of_lt_of_le hi (applyBlocklockOp_nextSealId decrypt op s))
        (applyBlocklockOp_revealed decrypt op s i hi hrev)

/-- A concrete decryption oracle: the ciphertext handle is the plaintext. -/
def c1Decrypt : Nat → Nat → Option Nat := fun c _ => some c

/-- The sealed state after revealing seal 1 through the callback. -/
def c1Revealed : BlocklockState :=
  applyBlocklockOp c1Decrypt oneSealState (BlocklockOp.deliver 5 11)

/-- Witness for C1 at concrete inputs. -/
theorem reveal_idempotent_c1_witness :
    (onBlocklockReceived c1Decrypt 5 11
        (runBlocklock c1Decrypt (onBlocklockReceived c1Decrypt 5 11 oneSealState)
          [BlocklockOp.emergency 0 1 70 999999]) =
      runBlocklock c1Decrypt (onBlocklockReceived c1Decrypt 5 11 oneSealState)
        [BlocklockOp.emergency 0 1 70 999999]) ∧
    ((runBlocklock c1Decrypt c1Revealed [BlocklockOp.emergency 3 2 80 5]).seals 1).isRevealed
      = true :=
  ⟨reveal_idempotent_c1.2.1 c1Decrypt 5 11 oneSealState
      [BlocklockOp.emergency 0 1 70 999999] (by decide),
   reveal_idempotent_c1.2.2 c1Decrypt c1Revealed
      [BlocklockOp.emergency 3 2 80 5] 1 (by decide) (by decide)⟩
